import Mathlib

/-!
Retention-policy identifier codec and task lifecycle glue.

A shallow embedding of `resourceFirewallRule.go` and `resourceCassandraCluster.go`.

Go strings are modelled as Lean `String`s (sequences of characters).  The
separator `.` and the quote `"` are one-byte ASCII characters, so cutting or
filtering a well-formed UTF-8 string at them byte-wise and character-wise
agree.  A Go `(value, error)` result is a pair whose second component is an
`Option error`, `none` standing for `nil`.
-/

namespace TerraformProvider

/-! ## The fragment of Go's `strings` package used by the source -/

namespace strings

/-- Segments of a character sequence cut at every occurrence of `sep`.
There is always at least one segment: the empty input has the single empty
segment, as `strings.Split("", ".")` returns `[""]`. -/
def splitChars (sep : Char) : List Char → List (List Char)
  | [] => [[]]
  | c :: cs =>
    if c = sep then [] :: splitChars sep cs
    else
      match splitChars sep cs with
      | [] => [[c]]
      | seg :: rest => (c :: seg) :: rest

/-- Go's `strings.Split(s, sep)` for a separator that is a single character;
the source calls it with `"."` only. -/
def Split (s : String) (sep : Char) : List String :=
  (splitChars sep s.data).map String.mk

/-- Every occurrence of the character `old` replaced by the sequence `new`. -/
def replaceChars (old : Char) (new : List Char) : List Char → List Char
  | [] => []
  | c :: cs =>
    if c = old then new ++ replaceChars old new cs
    else c :: replaceChars old new cs

/-- Go's `strings.Replace(s, old, new, -1)` (no limit on the number of
replacements) for an `old` that is a single character; the source calls it
with `"\""` only. -/
def Replace (s : String) (old : Char) (new : String) : String :=
  ⟨replaceChars old new.data s.data⟩

/-- Whether `sub` occurs as a contiguous run inside a character sequence. -/
def containsChars (sub : List Char) : List Char → Bool
  | [] => sub.isEmpty
  | c :: cs => sub.isPrefixOf (c :: cs) || containsChars sub cs

/-- Go's `strings.Contains(s, substr)`. -/
def Contains (s substr : String) : Bool :=
  containsChars substr.data s.data

/-- Go's `strings.Trim(s, cutset)`: leading and trailing characters that
belong to `cutset` are removed. -/
def Trim (s cutset : String) : String :=
  ⟨(((s.data.dropWhile (fun c => cutset.data.contains c)).reverse).dropWhile
      (fun c => cutset.data.contains c)).reverse⟩

end strings

/-! ## Data model -/

/-- Go's `error` interface, observed through its `Error()` message. -/
structure error where
  Error : String
deriving DecidableEq, Repr

/-- The client library's `DBRP` struct. -/
structure DBRP where
  Database : String
  RetentionPolicy : String
deriving DecidableEq, Repr

/-- Modelled from the spec: the method `String` of the client library's `DBRP`
type is not part of the sources; the spec gives the serialized form of a pair
as its canonical dotted string, `serialize([{a, b}, {c, d}]) = ["a.b", "c.d"]`. -/
def DBRP.String (d : DBRP) : String :=
  d.Database ++ "." ++ d.RetentionPolicy

/-- The zero value `kapacitorClient.DBRP{}`. -/
def DBRP.zero : DBRP := ⟨"", ""⟩

/-! ## The codec -/

/-- The message built by the `fmt.Errorf` call of `parseDatabaseRetentionPolicy`. -/
def parseErrorMessage (databaseRetentionPolicyString : String) : String :=
  "error parsing databaseRetentionPolicy: " ++ databaseRetentionPolicyString
    ++ ". Expected form: \"my_db\".\"my_rp\""

/-- Embedding of `parseDatabaseRetentionPolicy`. -/
def parseDatabaseRetentionPolicy (databaseRetentionPolicyString : String) :
    DBRP × Option error :=
  let split := strings.Split databaseRetentionPolicyString '.'
  if split.length ≠ 2 then
    (DBRP.zero, some ⟨parseErrorMessage databaseRetentionPolicyString⟩)
  else
    (⟨strings.Replace (split.getD 0 "") '"' "",
      strings.Replace (split.getD 1 "") '"' ""⟩, none)

/-- The `for i, x := range` loop of `parseDatabaseRetentionPolicies`: `out` is
the slice being filled, `i` the index of the next entry. -/
def parseDatabaseRetentionPoliciesLoop (out : List DBRP) (i : Nat) :
    List String → List DBRP × Option error
  | [] => (out, none)
  | s :: rest =>
    match parseDatabaseRetentionPolicy s with
    | (_, some err) => (out, some err)
    | (databaseRetentionPolicy, none) =>
      parseDatabaseRetentionPoliciesLoop (out.set i databaseRetentionPolicy) (i + 1) rest

/-- Embedding of `parseDatabaseRetentionPolicies`: a slice of zero values of
the input's length is allocated, then filled entry by entry. -/
def parseDatabaseRetentionPolicies (databaseRetentionPolicySliceInterface : List String) :
    List DBRP × Option error :=
  parseDatabaseRetentionPoliciesLoop
    (List.replicate databaseRetentionPolicySliceInterface.length DBRP.zero) 0
    databaseRetentionPolicySliceInterface

/-- The `for i, dbrp := range` loop of `serializeDatabaseRetentionPolicies`. -/
def serializeDatabaseRetentionPoliciesLoop (out : List String) (i : Nat) :
    List DBRP → List String
  | [] => out
  | dbrp :: rest =>
    serializeDatabaseRetentionPoliciesLoop (out.set i dbrp.String) (i + 1) rest

/-- Embedding of `serializeDatabaseRetentionPolicies`. -/
def serializeDatabaseRetentionPolicies (dbrps : List DBRP) : List String :=
  serializeDatabaseRetentionPoliciesLoop (List.replicate dbrps.length "") 0 dbrps

/-! ## The collaborators: resource data, client library, remote service

`resourceFirewallRule.go` and `resourceCassandraCluster.go` both declare
`getCreateTaskOptions`, `serializeDatabaseRetentionPolicies`,
`parseDatabaseRetentionPolicies` and `parseDatabaseRetentionPolicy`, with the
same text; each is embedded once.
-/

/-- The client library's `TaskType` (a Go integer enumeration); only its zero
value and its text codec are used by the source. -/
abbrev TaskType := Int

/-- The client library's `TaskStatus` (a Go integer enumeration). -/
abbrev TaskStatus := Int

/-- The fields of the client library's `Task` record read by the source. -/
structure Task where
  ID : String
  Type_ : TaskType
  DBRPs : List DBRP
  TICKscript : String
  Status : TaskStatus
deriving DecidableEq, Repr

/-- The fields of `kapacitorClient.CreateTaskOptions` set by the source. -/
structure CreateTaskOptions where
  Type_ : TaskType
  DBRPs : List DBRP
  TICKscript : String
  Status : TaskStatus
deriving DecidableEq, Repr

/-- The zero value `kapacitorClient.CreateTaskOptions{}`. -/
def CreateTaskOptions.zero : CreateTaskOptions := ⟨0, [], "", 0⟩

/-- The fields of `kapacitorClient.UpdateTaskOptions` the source sets, and
`DBRPs`, which it leaves out of the composite literal. -/
structure UpdateTaskOptions where
  ID : String
  Type_ : TaskType
  DBRPs : List DBRP
  TICKscript : String
  Status : TaskStatus
deriving DecidableEq, Repr

/-- The value returned by `client.TaskLink`. -/
structure Link where
  Href : String
deriving DecidableEq, Repr

/-- The `schema.ResourceData` fields the lifecycle functions access, with the
types their type assertions demand.  `Id` is the resource identifier written
by `SetId`; `id` is the field read by `Get("id")` and written by
`Set("id", _)`. -/
structure ResourceData where
  Id : String
  id : String
  type : String
  database_retention_policies : List String
  tick_script : String
  status : String
deriving DecidableEq, Repr

/-- The `MarshalText` and `UnmarshalText` methods of the client library's
`TaskType` and `TaskStatus`; they are not part of the sources and are taken as
parameters.  An unmarshal returns the receiver's value after the call. -/
structure TextCodec where
  TaskTypeUnmarshalText : String → TaskType × Option error
  TaskTypeMarshalText : TaskType → String × Option error
  TaskStatusUnmarshalText : String → TaskStatus × Option error
  TaskStatusMarshalText : TaskStatus → String × Option error

/-- What a client call that yields a task returns. -/
abbrev TaskResult := Task × Option error

/-- The `kapacitorClient.Client` methods the source calls, over a remote
service with states `σ`: each call returns its Go result and the service's
next state.  `TaskLink` only builds a link. -/
structure Client (σ : Type) where
  TaskLink : String → Link
  CreateTask : CreateTaskOptions → σ → TaskResult × σ
  UpdateTask : Link → UpdateTaskOptions → σ → TaskResult × σ
  DeleteTask : Link → σ → Option error × σ
  Task : Link → σ → TaskResult × σ

/-- A call received by the remote service. -/
inductive Call where
  | CreateTask (opt : CreateTaskOptions)
  | Task (link : Link)
  | UpdateTask (link : Link) (opt : UpdateTaskOptions)
  | DeleteTask (link : Link)
deriving DecidableEq, Repr

/-- The remote service's state together with the calls made so far, oldest
first. -/
structure World (σ : Type) where
  remote : σ
  calls : List Call
deriving DecidableEq

/-- What a lifecycle function leaves behind: the error it returns, the
resource data and the world after it. -/
structure Outcome (σ : Type) where
  err : Option error
  data : ResourceData
  world : World σ
deriving DecidableEq

/-! ## The lifecycle functions -/

/-- Embedding of `getCreateTaskOptions`. -/
def getCreateTaskOptions (lib : TextCodec) (data : ResourceData) :
    CreateTaskOptions × Option error :=
  let taskTypeString := data.type
  match lib.TaskTypeUnmarshalText taskTypeString with
  | (_, some err) => (CreateTaskOptions.zero, some err)
  | (taskType, none) =>
    let tickScript := data.tick_script
    let databaseRetentionPolicySliceInterface := data.database_retention_policies
    match parseDatabaseRetentionPolicies databaseRetentionPolicySliceInterface with
    | (_, some err) => (CreateTaskOptions.zero, some err)
    | (dbrps, none) =>
      let taskStatusString := data.status
      match lib.TaskStatusUnmarshalText taskStatusString with
      | (_, some err) => (CreateTaskOptions.zero, some err)
      | (taskStatus, none) => (⟨taskType, dbrps, tickScript, taskStatus⟩, none)

/-- Embedding of `resourceFirewallRuleRead`. -/
def resourceFirewallRuleRead {σ : Type} (lib : TextCodec) (client : Client σ)
    (data : ResourceData) (w : World σ) : Outcome σ :=
  let link := client.TaskLink data.id
  let r := client.Task link w.remote
  let w1 : World σ := ⟨r.2, w.calls ++ [Call.Task link]⟩
  match r.1 with
  | (_, some err) => ⟨some err, data, w1⟩
  | (task, none) =>
    if task.ID ≠ "" then
      match lib.TaskTypeMarshalText task.Type_ with
      | (_, some err) => ⟨some err, data, w1⟩
      | (taskTypeBytes, none) =>
        match lib.TaskStatusMarshalText task.Status with
        | (_, some err) => ⟨some err, data, w1⟩
        | (taskStatusBytes, none) =>
          ⟨none,
            { data with
              type := taskTypeBytes
              database_retention_policies := serializeDatabaseRetentionPolicies task.DBRPs
              tick_script := strings.Trim task.TICKscript "\n"
              status := taskStatusBytes
              id := task.ID },
            w1⟩
    else
      ⟨none, { data with Id := "" }, w1⟩

/-- Embedding of `resourceFirewallRuleCreate`. -/
def resourceFirewallRuleCreate {σ : Type} (lib : TextCodec) (client : Client σ)
    (data : ResourceData) (w : World σ) : Outcome σ :=
  match getCreateTaskOptions lib data with
  | (_, some err) => ⟨some err, data, w⟩
  | (createTaskOptions, none) =>
    let r := client.CreateTask createTaskOptions w.remote
    let w1 : World σ := ⟨r.2, w.calls ++ [Call.CreateTask createTaskOptions]⟩
    match r.1 with
    | (_, some err) => ⟨some err, data, w1⟩
    | (task, none) =>
      resourceFirewallRuleRead lib client { data with id := task.ID, Id := task.ID } w1

/-- Embedding of `resourceFirewallRuleUpdate`. -/
def resourceFirewallRuleUpdate {σ : Type} (lib : TextCodec) (client : Client σ)
    (data : ResourceData) (w : World σ) : Outcome σ :=
  let id := data.id
  match getCreateTaskOptions lib data with
  | (_, some err) => ⟨some err, data, w⟩
  | (createTaskOptions, none) =>
    let link := client.TaskLink id
    let opt : UpdateTaskOptions :=
      { ID := id
        Type_ := createTaskOptions.Type_
        DBRPs := []
        TICKscript := createTaskOptions.TICKscript
        Status := createTaskOptions.Status }
    let r := client.UpdateTask link opt w.remote
    let w1 : World σ := ⟨r.2, w.calls ++ [Call.UpdateTask link opt]⟩
    match r.1.2 with
    | some err =>
      if !strings.Contains err.Error "invalid response: code 204" then
        ⟨some err, data, w1⟩
      else resourceFirewallRuleRead lib client data w1
    | none => resourceFirewallRuleRead lib client data w1

/-- Embedding of `resourceFirewallRuleDelete`. -/
def resourceFirewallRuleDelete {σ : Type} (client : Client σ)
    (data : ResourceData) (w : World σ) : Outcome σ :=
  let link := client.TaskLink data.id
  let r := client.DeleteTask link w.remote
  let w1 : World σ := ⟨r.2, w.calls ++ [Call.DeleteTask link]⟩
  match r.1 with
  | some err => ⟨some err, data, w1⟩
  | none => ⟨none, { data with Id := "" }, w1⟩

/-- Embedding of `resourceCassandraClusterRead`. -/
def resourceCassandraClusterRead {σ : Type} (lib : TextCodec) (client : Client σ)
    (data : ResourceData) (w : World σ) : Outcome σ :=
  let link := client.TaskLink data.id
  let r := client.Task link w.remote
  let w1 : World σ := ⟨r.2, w.calls ++ [Call.Task link]⟩
  match r.1 with
  | (_, some err) => ⟨some err, data, w1⟩
  | (task, none) =>
    if task.ID ≠ "" then
      match lib.TaskTypeMarshalText task.Type_ with
      | (_, some err) => ⟨some err, data, w1⟩
      | (taskTypeBytes, none) =>
        match lib.TaskStatusMarshalText task.Status with
        | (_, some err) => ⟨some err, data, w1⟩
        | (taskStatusBytes, none) =>
          ⟨none,
            { data with
              type := taskTypeBytes
              database_retention_policies := serializeDatabaseRetentionPolicies task.DBRPs
              tick_script := strings.Trim task.TICKscript "\n"
              status := taskStatusBytes
              id := task.ID },
            w1⟩
    else
      ⟨none, { data with Id := "" }, w1⟩

/-- Embedding of `resourceCassandraClusterCreate`. -/
def resourceCassandraClusterCreate {σ : Type} (lib : TextCodec) (client : Client σ)
    (data : ResourceData) (w : World σ) : Outcome σ :=
  match getCreateTaskOptions lib data with
  | (_, some err) => ⟨some err, data, w⟩
  | (createTaskOptions, none) =>
    let r := client.CreateTask createTaskOptions w.remote
    let w1 : World σ := ⟨r.2, w.calls ++ [Call.CreateTask createTaskOptions]⟩
    match r.1 with
    | (_, some err) => ⟨some err, data, w1⟩
    | (task, none) =>
      resourceCassandraClusterRead lib client { data with id := task.ID, Id := task.ID } w1

/-- Embedding of `resourceCassandraClusterUpdate`. -/
def resourceCassandraClusterUpdate {σ : Type} (lib : TextCodec) (client : Client σ)
    (data : ResourceData) (w : World σ) : Outcome σ :=
  let id := data.id
  match getCreateTaskOptions lib data with
  | (_, some err) => ⟨some err, data, w⟩
  | (createTaskOptions, none) =>
    let link := client.TaskLink id
    let opt : UpdateTaskOptions :=
      { ID := id
        Type_ := createTaskOptions.Type_
        DBRPs := []
        TICKscript := createTaskOptions.TICKscript
        Status := createTaskOptions.Status }
    let r := client.UpdateTask link opt w.remote
    let w1 : World σ := ⟨r.2, w.calls ++ [Call.UpdateTask link opt]⟩
    match r.1.2 with
    | some err =>
      if !strings.Contains err.Error "invalid response: code 204" then
        ⟨some err, data, w1⟩
      else resourceCassandraClusterRead lib client data w1
    | none => resourceCassandraClusterRead lib client data w1

/-! ## Reference notions used to state the properties -/

/-- An entry is well formed when it contains exactly one `.` character. -/
def wellFormedEntry (s : String) : Prop :=
  s.data.count '.' = 1

instance (s : String) : Decidable (wellFormedEntry s) := by
  unfold wellFormedEntry; infer_instance

/-- The part of an entry before its first `.`. -/
def specBeforeDot (s : String) : String :=
  ⟨s.data.takeWhile (fun c => c != '.')⟩

/-- The part of an entry after its first `.`. -/
def specAfterDot (s : String) : String :=
  ⟨(s.data.dropWhile (fun c => c != '.')).drop 1⟩

/-- A string with every `"` character removed. -/
def specStripQuotes (s : String) : String :=
  ⟨s.data.filter (fun c => c != '"')⟩

/-- The pair the claim assigns to a well-formed entry. -/
def specParsedEntry (s : String) : DBRP :=
  ⟨specStripQuotes (specBeforeDot s), specStripQuotes (specAfterDot s)⟩

/-- The request an update sends for a local state whose options are `opts`. -/
def updateTaskRequest (data : ResourceData) (opts : CreateTaskOptions) : UpdateTaskOptions :=
  { ID := data.id
    Type_ := opts.Type_
    DBRPs := []
    TICKscript := opts.TICKscript
    Status := opts.Status }

/-- The error returned by the `UpdateTask` call of an update. -/
def updateTaskError {σ : Type} (client : Client σ) (data : ResourceData)
    (opts : CreateTaskOptions) (w : World σ) : Option error :=
  (client.UpdateTask (client.TaskLink data.id) (updateTaskRequest data opts) w.remote).1.2

/-- The world once the `UpdateTask` call of an update has returned and no
other call has been made. -/
def worldAfterUpdateTask {σ : Type} (client : Client σ) (data : ResourceData)
    (opts : CreateTaskOptions) (w : World σ) : World σ :=
  ⟨(client.UpdateTask (client.TaskLink data.id) (updateTaskRequest data opts) w.remote).2,
    w.calls ++ [Call.UpdateTask (client.TaskLink data.id) (updateTaskRequest data opts)]⟩

/-- The world once the task lookup of a read has returned. -/
def worldAfterTaskLookup {σ : Type} (client : Client σ) (data : ResourceData)
    (w : World σ) : World σ :=
  ⟨(client.Task (client.TaskLink data.id) w.remote).2,
    w.calls ++ [Call.Task (client.TaskLink data.id)]⟩

/-! ## Sample collaborators, for evaluating the functions on concrete inputs -/

/-- A text codec that accepts the task types `stream` and `batch` and the
statuses `enabled` and `disabled`, and rejects every other text or value. -/
def sampleTextCodec : TextCodec where
  TaskTypeUnmarshalText := fun s =>
    if s = "stream" then (1, none)
    else if s = "batch" then (2, none)
    else (0, some ⟨"unknown TaskType " ++ s⟩)
  TaskTypeMarshalText := fun t =>
    if t = 1 then ("stream", none)
    else if t = 2 then ("batch", none)
    else ("", some ⟨"unknown TaskType"⟩)
  TaskStatusUnmarshalText := fun s =>
    if s = "enabled" then (1, none)
    else if s = "disabled" then (2, none)
    else (0, some ⟨"unknown TaskStatus " ++ s⟩)
  TaskStatusMarshalText := fun t =>
    if t = 1 then ("enabled", none)
    else if t = 2 then ("disabled", none)
    else ("", some ⟨"unknown TaskStatus"⟩)

/-- A client over a service without state of its own: `UpdateTask` answers
with `updateErr`, the task lookup answers with `found`. -/
def sampleClient (updateErr : Option error) (found : Task) : Client Unit where
  TaskLink := fun id => ⟨"/kapacitor/v1/tasks/" ++ id⟩
  CreateTask := fun opt _ =>
    ((⟨"task-1", opt.Type_, opt.DBRPs, opt.TICKscript, opt.Status⟩, none), ())
  UpdateTask := fun _ _ _ => ((⟨"", 0, [], "", 0⟩, updateErr), ())
  DeleteTask := fun _ _ => (none, ())
  Task := fun _ _ => ((found, none), ())

/-- A client over a service without state of its own whose task lookup fails:
it answers with the zero task, whose `ID` is empty, and the error `lookupErr`. -/
def sampleFailingLookupClient (lookupErr : error) : Client Unit where
  TaskLink := fun id => ⟨"/kapacitor/v1/tasks/" ++ id⟩
  CreateTask := fun opt _ =>
    ((⟨"task-1", opt.Type_, opt.DBRPs, opt.TICKscript, opt.Status⟩, none), ())
  UpdateTask := fun _ _ _ => ((⟨"", 0, [], "", 0⟩, none), ())
  DeleteTask := fun _ _ => (none, ())
  Task := fun _ _ => ((⟨"", 0, [], "", 0⟩, some lookupErr), ())

/-- A task as the remote service holds it. -/
def sampleTask : Task := ⟨"task-1", 1, [⟨"mydb", "myrp"⟩], "stream|from()\n", 1⟩

/-- The zero value `kapacitorClient.Task{}`, whose `ID` is empty. -/
def Task.zero : Task := ⟨"", 0, [], "", 0⟩

/-- A local resource state whose every field parses. -/
def sampleData : ResourceData :=
  ⟨"task-1", "task-1", "stream", ["mydb.myrp"], "stream|from()", "enabled"⟩

/-- A local resource state with a malformed identifier entry. -/
def sampleMalformedData : ResourceData :=
  ⟨"task-1", "task-1", "stream", ["mydb.myrp", "onlyonepart"], "stream|from()", "enabled"⟩

/-- A local resource state with a malformed identifier entry and a task type
the sample codec rejects. -/
def sampleUnknownTypeData : ResourceData :=
  ⟨"task-1", "task-1", "bogus", ["onlyonepart"], "stream|from()", "enabled"⟩

/-- A world in which no call has been made yet. -/
def sampleWorld : World Unit := ⟨(), []⟩

/-! ## Lemmas on the string primitives -/

theorem strings.splitChars_ne_nil (sep : Char) (s : List Char) :
    strings.splitChars sep s ≠ [] := by
  cases s with
  | nil => simp [strings.splitChars]
  | cons c cs =>
    simp only [strings.splitChars]
    split
    · simp
    · split <;> simp

theorem strings.length_splitChars (sep : Char) (s : List Char) :
    (strings.splitChars sep s).length = s.count sep + 1 := by
  induction s with
  | nil => simp [strings.splitChars]
  | cons c cs ih =>
    simp only [strings.splitChars]
    by_cases h : c = sep
    · subst h
      simp [ih]
    · have hc : (c :: cs).count sep = cs.count sep := by
        rw [List.count_cons]
        simp [h]
      rw [if_neg h, hc]
      cases hs : strings.splitChars sep cs with
      | nil => exact absurd hs (strings.splitChars_ne_nil sep cs)
      | cons seg rest =>
        rw [hs] at ih
        simpa using ih

theorem strings.splitChars_of_not_mem (sep : Char) (s : List Char) (h : sep ∉ s) :
    strings.splitChars sep s = [s] := by
  induction s with
  | nil => simp [strings.splitChars]
  | cons c cs ih =>
    have hc : ¬ c = sep := fun e => h (by simp [e])
    have hcs : sep ∉ cs := fun e => h (List.mem_cons_of_mem _ e)
    simp [strings.splitChars, hc, ih hcs]

theorem strings.splitChars_append_sep (sep : Char) (a b : List Char) (h : sep ∉ a) :
    strings.splitChars sep (a ++ sep :: b) = a :: strings.splitChars sep b := by
  induction a with
  | nil => simp [strings.splitChars]
  | cons c cs ih =>
    have hc : ¬ c = sep := fun e => h (by simp [e])
    have hcs : sep ∉ cs := fun e => h (List.mem_cons_of_mem _ e)
    simp [strings.splitChars, hc, ih hcs]

theorem strings.splitChars_of_count_one (sep : Char) (s : List Char)
    (h : s.count sep = 1) :
    strings.splitChars sep s =
      [s.takeWhile (fun c => c != sep), (s.dropWhile (fun c => c != sep)).drop 1] := by
  induction s with
  | nil => simp at h
  | cons c cs ih =>
    by_cases hc : c = sep
    · subst hc
      have h0 : cs.count c = 0 := by simpa using h
      have hn : c ∉ cs := List.count_eq_zero.mp h0
      simp [strings.splitChars, strings.splitChars_of_not_mem c cs hn]
    · have h1 : cs.count sep = 1 := by
        rw [List.count_cons] at h
        simpa [hc] using h
      simp [strings.splitChars, hc, ih h1]

theorem strings.replaceChars_nil (old : Char) (s : List Char) :
    strings.replaceChars old [] s = s.filter (fun c => c != old) := by
  induction s with
  | nil => simp [strings.replaceChars]
  | cons c cs ih =>
    by_cases hc : c = old
    · simp [strings.replaceChars, hc, ih]
    · simp [strings.replaceChars, hc, ih]

theorem strings.replaceChars_of_not_mem (old : Char) (s : List Char) (h : old ∉ s) :
    strings.replaceChars old [] s = s := by
  rw [strings.replaceChars_nil, List.filter_eq_self]
  intro c hc
  have : c ≠ old := fun e => h (e ▸ hc)
  simpa using this

/-! ## Lemmas on the codec -/

theorem set_length_append {α : Type} (pre : List α) (z d : α) (zs : List α) :
    (pre ++ z :: zs).set pre.length d = pre ++ d :: zs := by
  induction pre with
  | nil => rfl
  | cons x xs ih => simp [List.set, ih]

theorem wellFormedEntry_iff_split (s : String) :
    wellFormedEntry s ↔ (strings.Split s '.').length = 2 := by
  unfold wellFormedEntry strings.Split
  rw [List.length_map, strings.length_splitChars]
  omega

theorem parseDatabaseRetentionPolicy_of_wellFormed (s : String) (h : wellFormedEntry s) :
    parseDatabaseRetentionPolicy s = (specParsedEntry s, none) := by
  have hlen : (strings.Split s '.').length = 2 := (wellFormedEntry_iff_split s).mp h
  have hsplit : strings.Split s '.' = [specBeforeDot s, specAfterDot s] := by
    unfold strings.Split
    rw [strings.splitChars_of_count_one '.' s.data h]
    rfl
  unfold parseDatabaseRetentionPolicy
  simp only [hlen, ne_eq, not_true_eq_false, if_false]
  rw [hsplit]
  simp [specParsedEntry, specStripQuotes, strings.Replace, strings.replaceChars_nil]

theorem parseDatabaseRetentionPolicy_of_malformed (s : String) (h : ¬ wellFormedEntry s) :
    parseDatabaseRetentionPolicy s = (DBRP.zero, some ⟨parseErrorMessage s⟩) := by
  have hlen : (strings.Split s '.').length ≠ 2 := fun e => h ((wellFormedEntry_iff_split s).mpr e)
  unfold parseDatabaseRetentionPolicy
  simp [hlen]

theorem parseLoop_of_wellFormed (l : List String) (h : ∀ s ∈ l, wellFormedEntry s) :
    ∀ (pre zs : List DBRP), l.length ≤ zs.length →
      parseDatabaseRetentionPoliciesLoop (pre ++ zs) pre.length l =
        (pre ++ l.map specParsedEntry ++ zs.drop l.length, none) := by
  induction l with
  | nil => intro pre zs _; simp [parseDatabaseRetentionPoliciesLoop]
  | cons s rest ih =>
    intro pre zs hlen
    cases zs with
    | nil => simp at hlen
    | cons z zs =>
      have hs : wellFormedEntry s := h s (by simp)
      have hrest : ∀ t ∈ rest, wellFormedEntry t := fun t ht => h t (List.mem_cons_of_mem _ ht)
      have hlen2 : rest.length ≤ zs.length := by simpa using hlen
      have step := ih hrest (pre ++ [specParsedEntry s]) zs hlen2
      simp only [parseDatabaseRetentionPoliciesLoop,
        parseDatabaseRetentionPolicy_of_wellFormed s hs, set_length_append]
      simp only [List.length_append, List.length_singleton, List.append_assoc,
        List.singleton_append] at step
      simp [step]

theorem parseLoop_first_failure (pre : List String) (bad : String) (post : List String)
    (hpre : ∀ s ∈ pre, wellFormedEntry s) (hbad : ¬ wellFormedEntry bad) :
    ∀ (out : List DBRP) (i : Nat),
      (parseDatabaseRetentionPoliciesLoop out i (pre ++ bad :: post)).2 =
        some ⟨parseErrorMessage bad⟩ := by
  induction pre with
  | nil =>
    intro out i
    simp [parseDatabaseRetentionPoliciesLoop, parseDatabaseRetentionPolicy_of_malformed bad hbad]
  | cons s rest ih =>
    intro out i
    have hs : wellFormedEntry s := hpre s (by simp)
    have hrest : ∀ t ∈ rest, wellFormedEntry t :=
      fun t ht => hpre t (List.mem_cons_of_mem _ ht)
    simp only [List.cons_append, parseDatabaseRetentionPoliciesLoop,
      parseDatabaseRetentionPolicy_of_wellFormed s hs]
    exact ih hrest _ _

theorem exists_first_malformed (l : List String) (h : ∃ s ∈ l, ¬ wellFormedEntry s) :
    ∃ pre bad post, l = pre ++ bad :: post ∧ (∀ s ∈ pre, wellFormedEntry s) ∧
      ¬ wellFormedEntry bad := by
  induction l with
  | nil => obtain ⟨s, hs, _⟩ := h; simp at hs
  | cons x xs ih =>
    by_cases hx : wellFormedEntry x
    · have hxs : ∃ s ∈ xs, ¬ wellFormedEntry s := by
        obtain ⟨s, hs, hbad⟩ := h
        rcases List.mem_cons.mp hs with rfl | hmem
        · exact absurd hx hbad
        · exact ⟨s, hmem, hbad⟩
      obtain ⟨pre, bad, post, rfl, hpre, hbad⟩ := ih hxs
      refine ⟨x :: pre, bad, post, rfl, ?_, hbad⟩
      intro s hs
      rcases List.mem_cons.mp hs with rfl | hmem
      · exact hx
      · exact hpre s hmem
    · exact ⟨[], x, xs, rfl, by simp, hx⟩

theorem parseDatabaseRetentionPolicies_of_wellFormed (l : List String)
    (h : ∀ s ∈ l, wellFormedEntry s) :
    parseDatabaseRetentionPolicies l = (l.map specParsedEntry, none) := by
  have := parseLoop_of_wellFormed l h [] (List.replicate l.length DBRP.zero) (by simp)
  simpa [parseDatabaseRetentionPolicies] using this

theorem parseDatabaseRetentionPolicies_first_failure (pre : List String) (bad : String)
    (post : List String) (hpre : ∀ s ∈ pre, wellFormedEntry s) (hbad : ¬ wellFormedEntry bad) :
    (parseDatabaseRetentionPolicies (pre ++ bad :: post)).2 = some ⟨parseErrorMessage bad⟩ :=
  parseLoop_first_failure pre bad post hpre hbad _ _

theorem serializeLoop_eq (l : List DBRP) :
    ∀ (pre zs : List String), l.length ≤ zs.length →
      serializeDatabaseRetentionPoliciesLoop (pre ++ zs) pre.length l =
        pre ++ l.map DBRP.String ++ zs.drop l.length := by
  induction l with
  | nil => intro pre zs _; simp [serializeDatabaseRetentionPoliciesLoop]
  | cons d rest ih =>
    intro pre zs hlen
    cases zs with
    | nil => simp at hlen
    | cons z zs =>
      have hlen2 : rest.length ≤ zs.length := by simpa using hlen
      have step := ih (pre ++ [d.String]) zs hlen2
      simp only [serializeDatabaseRetentionPoliciesLoop, set_length_append]
      simp only [List.length_append, List.length_singleton, List.append_assoc,
        List.singleton_append] at step
      simp [step]

theorem serializeDatabaseRetentionPolicies_eq_map (l : List DBRP) :
    serializeDatabaseRetentionPolicies l = l.map DBRP.String := by
  have := serializeLoop_eq l [] (List.replicate l.length "") (by simp)
  simpa [serializeDatabaseRetentionPolicies] using this

theorem specParsedEntry_dotted (a b : String)
    (ha : '.' ∉ a.data) (haq : '"' ∉ a.data) (hb : '.' ∉ b.data) (hbq : '"' ∉ b.data) :
    wellFormedEntry (a ++ "." ++ b) ∧ specParsedEntry (a ++ "." ++ b) = ⟨a, b⟩ := by
  have hdata : (a ++ "." ++ b).data = a.data ++ '.' :: b.data := by
    simp [String.data_append]
  have hsplit := strings.splitChars_append_sep '.' a.data b.data ha
  rw [strings.splitChars_of_not_mem '.' b.data hb] at hsplit
  have hwf : wellFormedEntry (a ++ "." ++ b) := by
    rw [wellFormedEntry_iff_split]
    unfold strings.Split
    rw [hdata, hsplit]
    rfl
  refine ⟨hwf, ?_⟩
  have hone := strings.splitChars_of_count_one '.' (a ++ "." ++ b).data hwf
  rw [hdata] at hone
  rw [hsplit] at hone
  have h1 : a.data = List.takeWhile (fun c => c != '.') (a.data ++ '.' :: b.data) := by
    have := congrArg (fun l => l.getD 0 []) hone
    simpa using this
  have h2 : b.data = List.drop 1 (List.dropWhile (fun c => c != '.') (a.data ++ '.' :: b.data)) := by
    have := congrArg (fun l => l.getD 1 []) hone
    simpa using this
  have fa : a.data.filter (fun c => c != '"') = a.data := by
    rw [← strings.replaceChars_nil, strings.replaceChars_of_not_mem _ _ haq]
  have fb : b.data.filter (fun c => c != '"') = b.data := by
    rw [← strings.replaceChars_nil, strings.replaceChars_of_not_mem _ _ hbq]
  simp only [specParsedEntry, specStripQuotes, specBeforeDot, specAfterDot, hdata, ← h1, ← h2,
    fa, fb]

theorem isPrefixOf_append_self (sub b : List Char) : sub.isPrefixOf (sub ++ b) = true := by
  induction sub with
  | nil => simp [List.isPrefixOf]
  | cons c cs ih => simp [List.isPrefixOf, ih]

theorem strings.containsChars_append (a sub b : List Char) :
    strings.containsChars sub (a ++ (sub ++ b)) = true := by
  induction a with
  | nil =>
    rw [List.nil_append]
    cases h : sub ++ b with
    | nil =>
      have : sub = [] := (List.append_eq_nil.mp h).1
      simp [strings.containsChars, this]
    | cons c cs =>
      simp only [strings.containsChars]
      rw [← h, isPrefixOf_append_self]
      rfl
  | cons c cs ih =>
    rw [List.cons_append]
    simp only [strings.containsChars]
    rw [ih]
    simp

/-! ## The codec's properties -/

/-- C1: parsing the serialization of one pair `(a, b)` whose components hold
neither a `.` nor a `"` succeeds and returns exactly that pair. -/
theorem parse_serialize_roundtrip (a b : String)
    (ha : '.' ∉ a.data) (haq : '"' ∉ a.data) (hb : '.' ∉ b.data) (hbq : '"' ∉ b.data) :
    parseDatabaseRetentionPolicies (serializeDatabaseRetentionPolicies [⟨a, b⟩]) =
      ([⟨a, b⟩], none) := by
  obtain ⟨hwf, hval⟩ := specParsedEntry_dotted a b ha haq hb hbq
  rw [serializeDatabaseRetentionPolicies_eq_map]
  have hall : ∀ s ∈ [a ++ "." ++ b], wellFormedEntry s := by
    intro s hs
    rw [List.mem_singleton.mp hs]
    exact hwf
  simp only [List.map_cons, List.map_nil, DBRP.String]
  rw [parseDatabaseRetentionPolicies_of_wellFormed _ hall]
  simp [hval]

/-- C1 at the pair `(mydb, myrp)`. -/
theorem parse_serialize_roundtrip_witness :
    parseDatabaseRetentionPolicies (serializeDatabaseRetentionPolicies [⟨"mydb", "myrp"⟩]) =
      ([⟨"mydb", "myrp"⟩], none) :=
  parse_serialize_roundtrip "mydb" "myrp" (by decide) (by decide) (by decide) (by decide)

/-- C2: a wire string `a.b` whose parts hold neither a `.` nor a `"` parses
to some list, and serializing that list gives the wire string back. -/
theorem serialize_parse_roundtrip (a b : String)
    (ha : '.' ∉ a.data) (haq : '"' ∉ a.data) (hb : '.' ∉ b.data) (hbq : '"' ∉ b.data) :
    ∃ x, parseDatabaseRetentionPolicies [a ++ "." ++ b] = (x, none) ∧
      serializeDatabaseRetentionPolicies x = [a ++ "." ++ b] := by
  obtain ⟨hwf, hval⟩ := specParsedEntry_dotted a b ha haq hb hbq
  have hall : ∀ s ∈ [a ++ "." ++ b], wellFormedEntry s := by
    intro s hs
    rw [List.mem_singleton.mp hs]
    exact hwf
  refine ⟨[⟨a, b⟩], ?_, ?_⟩
  · rw [parseDatabaseRetentionPolicies_of_wellFormed _ hall]
    simp [hval]
  · rw [serializeDatabaseRetentionPolicies_eq_map]
    simp [DBRP.String]

/-- C2 at the wire string `mydb.myrp`. -/
theorem serialize_parse_roundtrip_witness :
    ∃ x, parseDatabaseRetentionPolicies ["mydb" ++ "." ++ "myrp"] = (x, none) ∧
      serializeDatabaseRetentionPolicies x = ["mydb" ++ "." ++ "myrp"] :=
  serialize_parse_roundtrip "mydb" "myrp" (by decide) (by decide) (by decide) (by decide)

/-- C3: serialization keeps the length and the order of its input, its i-th
output being `Database_i ++ "." ++ RetentionPolicy_i`; the pairs `(a, b)` and
`(c, d)` serialize to `a.b` and `c.d`. -/
theorem serialize_canonical_form (dbrps : List DBRP) :
    (serializeDatabaseRetentionPolicies dbrps).length = dbrps.length ∧
    (∀ i : Nat, (serializeDatabaseRetentionPolicies dbrps)[i]? =
      dbrps[i]?.map (fun d => d.Database ++ "." ++ d.RetentionPolicy)) ∧
    serializeDatabaseRetentionPolicies [⟨"a", "b"⟩, ⟨"c", "d"⟩] = ["a.b", "c.d"] := by
  refine ⟨?_, ?_, by decide⟩
  · rw [serializeDatabaseRetentionPolicies_eq_map, List.length_map]
  · intro i
    rw [serializeDatabaseRetentionPolicies_eq_map, List.getElem?_map]
    rfl

/-- C4: parsing a list returns an error exactly when some entry does not hold
exactly one `.`, which is when it does not split into two segments; the
entries `onlyonepart` and `"my.db"."my.rp"` are rejected. -/
theorem parse_error_iff_malformed (l : List String) :
    ((parseDatabaseRetentionPolicies l).2 ≠ none ↔ ∃ s ∈ l, ¬ wellFormedEntry s) ∧
    (∀ s : String, wellFormedEntry s ↔ (strings.Split s '.').length = 2) ∧
    (parseDatabaseRetentionPolicies ["onlyonepart"]).2 ≠ none ∧
    (parseDatabaseRetentionPolicies ["\"my.db\".\"my.rp\""]).2 ≠ none := by
  refine ⟨⟨?_, ?_⟩, wellFormedEntry_iff_split, by decide, by decide⟩
  · intro herr
    by_contra hall
    have hwf : ∀ s ∈ l, wellFormedEntry s := by
      intro s hs
      by_contra hbad
      exact hall ⟨s, hs, hbad⟩
    rw [parseDatabaseRetentionPolicies_of_wellFormed l hwf] at herr
    exact herr rfl
  · intro hbad
    obtain ⟨pre, bad, post, rfl, hpre, hb⟩ := exists_first_malformed l hbad
    rw [parseDatabaseRetentionPolicies_first_failure pre bad post hpre hb]
    simp

/-- C5: when every entry holds exactly one `.`, parsing succeeds with a list
of the input's length whose i-th pair is made of the parts of entry i before
and after the `.`, each with its `"` characters removed; `mydb.myrp` and
`"mydb"."myrp"` both parse to the pair `(mydb, myrp)`. -/
theorem parse_value_of_wellFormed (l : List String) (h : ∀ s ∈ l, wellFormedEntry s) :
    (parseDatabaseRetentionPolicies l).2 = none ∧
    (parseDatabaseRetentionPolicies l).1.length = l.length ∧
    (∀ i : Nat, (parseDatabaseRetentionPolicies l).1[i]? =
      l[i]?.map (fun s => (⟨specStripQuotes (specBeforeDot s),
        specStripQuotes (specAfterDot s)⟩ : DBRP))) ∧
    parseDatabaseRetentionPolicies ["mydb.myrp"] = ([⟨"mydb", "myrp"⟩], none) ∧
    parseDatabaseRetentionPolicies ["\"mydb\".\"myrp\""] = ([⟨"mydb", "myrp"⟩], none) := by
  rw [parseDatabaseRetentionPolicies_of_wellFormed l h]
  refine ⟨rfl, by simp, ?_, by decide, by decide⟩
  intro i
  simp only [List.getElem?_map]
  rfl

/-- C5 at a list of two well-formed entries. -/
theorem parse_value_of_wellFormed_witness :
    (parseDatabaseRetentionPolicies ["mydb.myrp", "\"a\".\"b\""]).2 = none ∧
    (parseDatabaseRetentionPolicies ["mydb.myrp", "\"a\".\"b\""]).1 =
      [⟨"mydb", "myrp"⟩, ⟨"a", "b"⟩] :=
  ⟨(parse_value_of_wellFormed ["mydb.myrp", "\"a\".\"b\""] (by decide)).1, by decide⟩

/-- C6: when some entry is malformed, the error returned is the one built for
the malformed entry of lowest index; its message holds that entry verbatim and
the expected form `"my_db"."my_rp"`, and the entries after it have no
influence on it. -/
theorem parse_first_failure_error (l : List String) (h : ∃ s ∈ l, ¬ wellFormedEntry s) :
    ∃ pre bad post, l = pre ++ bad :: post ∧ (∀ s ∈ pre, wellFormedEntry s) ∧
      ¬ wellFormedEntry bad ∧
      (parseDatabaseRetentionPolicies l).2 =
        some ⟨"error parsing databaseRetentionPolicy: " ++ bad
          ++ ". Expected form: \"my_db\".\"my_rp\""⟩ ∧
      (∀ e ∈ (parseDatabaseRetentionPolicies l).2,
        strings.Contains e.Error bad = true ∧
        strings.Contains e.Error "\"my_db\".\"my_rp\"" = true) ∧
      ∀ post', (parseDatabaseRetentionPolicies (pre ++ bad :: post')).2 =
        (parseDatabaseRetentionPolicies l).2 := by
  obtain ⟨pre, bad, post, rfl, hpre, hb⟩ := exists_first_malformed l h
  have herr := parseDatabaseRetentionPolicies_first_failure pre bad post hpre hb
  refine ⟨pre, bad, post, rfl, hpre, hb, herr, ?_, ?_⟩
  · intro e he
    rw [herr] at he
    have he2 : e = ⟨parseErrorMessage bad⟩ := by
      simpa using he.symm
    subst he2
    constructor
    · have := strings.containsChars_append
        "error parsing databaseRetentionPolicy: ".data bad.data
        ". Expected form: \"my_db\".\"my_rp\"".data
      simpa [strings.Contains, parseErrorMessage, String.data_append, List.append_assoc]
        using this
    · have := strings.containsChars_append
        ("error parsing databaseRetentionPolicy: ".data ++ bad.data ++ ". Expected form: ".data)
        "\"my_db\".\"my_rp\"".data []
      have hd : (parseErrorMessage bad).data =
          ("error parsing databaseRetentionPolicy: ".data ++ bad.data
            ++ ". Expected form: ".data) ++ ("\"my_db\".\"my_rp\"".data ++ []) := by
        simp [parseErrorMessage, String.data_append]
      simp only [strings.Contains]
      rw [hd]
      exact this
  · intro post'
    rw [herr]
    exact parseDatabaseRetentionPolicies_first_failure pre bad post' hpre hb

/-- C6 at a list whose second and third entries are malformed. -/
theorem parse_first_failure_error_witness :
    ∃ pre bad post, ["a.b", "bad", "x.y.z"] = pre ++ bad :: post ∧
      (∀ s ∈ pre, wellFormedEntry s) ∧ ¬ wellFormedEntry bad ∧
      (parseDatabaseRetentionPolicies ["a.b", "bad", "x.y.z"]).2 =
        some ⟨"error parsing databaseRetentionPolicy: " ++ bad
          ++ ". Expected form: \"my_db\".\"my_rp\""⟩ ∧
      (∀ e ∈ (parseDatabaseRetentionPolicies ["a.b", "bad", "x.y.z"]).2,
        strings.Contains e.Error bad = true ∧
        strings.Contains e.Error "\"my_db\".\"my_rp\"" = true) ∧
      ∀ post', (parseDatabaseRetentionPolicies (pre ++ bad :: post')).2 =
        (parseDatabaseRetentionPolicies ["a.b", "bad", "x.y.z"]).2 :=
  parse_first_failure_error ["a.b", "bad", "x.y.z"] ⟨"bad", by decide, by decide⟩

/-! ## Lemmas on the lifecycle functions -/

theorem getCreateTaskOptions_ok (lib : TextCodec) (data : ResourceData)
    (opts : CreateTaskOptions) (h : getCreateTaskOptions lib data = (opts, none)) :
    lib.TaskTypeUnmarshalText data.type = (opts.Type_, none) ∧
    parseDatabaseRetentionPolicies data.database_retention_policies = (opts.DBRPs, none) ∧
    lib.TaskStatusUnmarshalText data.status = (opts.Status, none) ∧
    opts.TICKscript = data.tick_script := by
  unfold getCreateTaskOptions at h
  rcases ht : lib.TaskTypeUnmarshalText data.type with ⟨tt, _ | e⟩
  · rcases hp : parseDatabaseRetentionPolicies data.database_retention_policies with ⟨ds, _ | e⟩
    · rcases hs : lib.TaskStatusUnmarshalText data.status with ⟨st, _ | e⟩
      · simp only [ht, hp, hs] at h
        have ho := (Prod.mk.inj h).1
        subst ho
        simp
      · simp [ht, hp, hs] at h
    · simp [ht, hp] at h
  · simp [ht] at h

theorem getCreateTaskOptions_type_error (lib : TextCodec) (data : ResourceData) (e : error)
    (ht : (lib.TaskTypeUnmarshalText data.type).2 = some e) :
    getCreateTaskOptions lib data = (CreateTaskOptions.zero, some e) := by
  unfold getCreateTaskOptions
  rcases hr : lib.TaskTypeUnmarshalText data.type with ⟨tt, eo⟩
  rw [hr] at ht
  simp only at ht
  subst ht
  simp only [hr]

theorem getCreateTaskOptions_parse_error (lib : TextCodec) (data : ResourceData) (e : error)
    (ht : (lib.TaskTypeUnmarshalText data.type).2 = none)
    (hp : (parseDatabaseRetentionPolicies data.database_retention_policies).2 = some e) :
    getCreateTaskOptions lib data = (CreateTaskOptions.zero, some e) := by
  unfold getCreateTaskOptions
  rcases hr : lib.TaskTypeUnmarshalText data.type with ⟨tt, eo⟩
  rw [hr] at ht
  simp only at ht
  subst ht
  rcases hq : parseDatabaseRetentionPolicies data.database_retention_policies with ⟨ds, eo⟩
  rw [hq] at hp
  simp only at hp
  subst hp
  simp only [hr, hq]

theorem firewallRuleCreate_of_options_error {σ : Type} (lib : TextCodec) (client : Client σ)
    (data : ResourceData) (w : World σ) (o : CreateTaskOptions) (e : error)
    (h : getCreateTaskOptions lib data = (o, some e)) :
    resourceFirewallRuleCreate lib client data w = ⟨some e, data, w⟩ := by
  unfold resourceFirewallRuleCreate
  rw [h]

theorem firewallRuleUpdate_of_options_error {σ : Type} (lib : TextCodec) (client : Client σ)
    (data : ResourceData) (w : World σ) (o : CreateTaskOptions) (e : error)
    (h : getCreateTaskOptions lib data = (o, some e)) :
    resourceFirewallRuleUpdate lib client data w = ⟨some e, data, w⟩ := by
  unfold resourceFirewallRuleUpdate
  simp only [h]

theorem cassandraClusterRead_eq {σ : Type} (lib : TextCodec) (client : Client σ)
    (data : ResourceData) (w : World σ) :
    resourceCassandraClusterRead lib client data w = resourceFirewallRuleRead lib client data w :=
  rfl

theorem cassandraClusterCreate_eq {σ : Type} (lib : TextCodec) (client : Client σ)
    (data : ResourceData) (w : World σ) :
    resourceCassandraClusterCreate lib client data w =
      resourceFirewallRuleCreate lib client data w :=
  rfl

theorem cassandraClusterUpdate_eq {σ : Type} (lib : TextCodec) (client : Client σ)
    (data : ResourceData) (w : World σ) :
    resourceCassandraClusterUpdate lib client data w =
      resourceFirewallRuleUpdate lib client data w :=
  rfl

theorem firewallRuleRead_calls {σ : Type} (lib : TextCodec) (client : Client σ)
    (data : ResourceData) (w : World σ) :
    (resourceFirewallRuleRead lib client data w).world = worldAfterTaskLookup client data w := by
  unfold resourceFirewallRuleRead worldAfterTaskLookup
  simp only
  split
  · rfl
  · split
    · split
      · rfl
      · split <;> rfl
    · rfl

theorem firewallRuleUpdate_of_options {σ : Type} (lib : TextCodec) (client : Client σ)
    (data : ResourceData) (w : World σ) (opts : CreateTaskOptions)
    (h : getCreateTaskOptions lib data = (opts, none)) :
    resourceFirewallRuleUpdate lib client data w =
      match updateTaskError client data opts w with
      | some err =>
        if strings.Contains err.Error "invalid response: code 204" = false then
          ⟨some err, data, worldAfterUpdateTask client data opts w⟩
        else resourceFirewallRuleRead lib client data (worldAfterUpdateTask client data opts w)
      | none => resourceFirewallRuleRead lib client data (worldAfterUpdateTask client data opts w) := by
  unfold resourceFirewallRuleUpdate updateTaskError worldAfterUpdateTask updateTaskRequest
  simp only [h]
  split
  · rename_i err hr
    cases hc : strings.Contains err.Error "invalid response: code 204" <;> simp [hc]
  · rfl

theorem firewallRuleUpdate_world {σ : Type} (lib : TextCodec) (client : Client σ)
    (data : ResourceData) (w : World σ) (opts : CreateTaskOptions)
    (h : getCreateTaskOptions lib data = (opts, none)) :
    (resourceFirewallRuleUpdate lib client data w).world =
      match updateTaskError client data opts w with
      | some err =>
        if strings.Contains err.Error "invalid response: code 204" = false then
          worldAfterUpdateTask client data opts w
        else worldAfterTaskLookup client data (worldAfterUpdateTask client data opts w)
      | none => worldAfterTaskLookup client data (worldAfterUpdateTask client data opts w) := by
  rw [firewallRuleUpdate_of_options lib client data w opts h]
  cases updateTaskError client data opts w with
  | none => simp only [firewallRuleRead_calls]
  | some err =>
    cases hc : strings.Contains err.Error "invalid response: code 204" <;>
      simp [hc, firewallRuleRead_calls]

theorem updateTaskRequest_eq (lib : TextCodec) (data : ResourceData)
    (opts : CreateTaskOptions) (h : getCreateTaskOptions lib data = (opts, none)) :
    updateTaskRequest data opts =
      ⟨data.id, (lib.TaskTypeUnmarshalText data.type).1, [], data.tick_script,
        (lib.TaskStatusUnmarshalText data.status).1⟩ := by
  obtain ⟨ht, _, hs, htick⟩ := getCreateTaskOptions_ok lib data opts h
  simp [updateTaskRequest, ht, hs, htick]

/-! ## The lifecycle functions' properties -/

/-- C7 as stated fails: with a malformed identifier entry and a task type the
codec rejects, create returns the task type's error, not the parse error. -/
theorem create_reports_type_error_first :
    (∃ s ∈ sampleUnknownTypeData.database_retention_policies, ¬ wellFormedEntry s) ∧
    (parseDatabaseRetentionPolicies sampleUnknownTypeData.database_retention_policies).2 =
      some ⟨"error parsing databaseRetentionPolicy: onlyonepart. Expected form: \"my_db\".\"my_rp\""⟩ ∧
    (resourceFirewallRuleCreate sampleTextCodec (sampleClient none sampleTask)
      sampleUnknownTypeData sampleWorld).err = some ⟨"unknown TaskType bogus"⟩ ∧
    (resourceFirewallRuleCreate sampleTextCodec (sampleClient none sampleTask)
      sampleUnknownTypeData sampleWorld).err ≠
      (parseDatabaseRetentionPolicies sampleUnknownTypeData.database_retention_policies).2 := by
  decide

/-- C7 (amended): when the identifier list holds a malformed entry and the
task type unmarshals, `getCreateTaskOptions` returns the empty options with
the parse error, and create and update return that error leaving the resource
data and the world (the remote state and the calls made) as they were; when
the task type does not unmarshal, the same holds with the task type's error. -/
theorem malformed_entry_aborts_before_any_call {σ : Type} (lib : TextCodec)
    (client : Client σ) (data : ResourceData) (w : World σ)
    (h : ∃ s ∈ data.database_retention_policies, ¬ wellFormedEntry s) :
    ∃ bad ∈ data.database_retention_policies, ¬ wellFormedEntry bad ∧
      (parseDatabaseRetentionPolicies data.database_retention_policies).2 =
        some ⟨parseErrorMessage bad⟩ ∧
      ((lib.TaskTypeUnmarshalText data.type).2 = none →
        getCreateTaskOptions lib data =
          (CreateTaskOptions.zero, some ⟨parseErrorMessage bad⟩) ∧
        resourceFirewallRuleCreate lib client data w =
          ⟨some ⟨parseErrorMessage bad⟩, data, w⟩ ∧
        resourceFirewallRuleUpdate lib client data w =
          ⟨some ⟨parseErrorMessage bad⟩, data, w⟩ ∧
        resourceCassandraClusterCreate lib client data w =
          ⟨some ⟨parseErrorMessage bad⟩, data, w⟩ ∧
        resourceCassandraClusterUpdate lib client data w =
          ⟨some ⟨parseErrorMessage bad⟩, data, w⟩) ∧
      (∀ e, (lib.TaskTypeUnmarshalText data.type).2 = some e →
        getCreateTaskOptions lib data = (CreateTaskOptions.zero, some e) ∧
        resourceFirewallRuleCreate lib client data w = ⟨some e, data, w⟩ ∧
        resourceFirewallRuleUpdate lib client data w = ⟨some e, data, w⟩ ∧
        resourceCassandraClusterCreate lib client data w = ⟨some e, data, w⟩ ∧
        resourceCassandraClusterUpdate lib client data w = ⟨some e, data, w⟩) := by
  obtain ⟨pre, bad, post, hl, hpre, hb⟩ :=
    exists_first_malformed data.database_retention_policies h
  have herr : (parseDatabaseRetentionPolicies data.database_retention_policies).2 =
      some ⟨parseErrorMessage bad⟩ := by
    rw [hl]
    exact parseDatabaseRetentionPolicies_first_failure pre bad post hpre hb
  refine ⟨bad, by rw [hl]; simp, hb, herr, ?_, ?_⟩
  · intro ht
    have ho := getCreateTaskOptions_parse_error lib data _ ht herr
    refine ⟨ho, ?_, ?_, ?_, ?_⟩
    · exact firewallRuleCreate_of_options_error lib client data w _ _ ho
    · exact firewallRuleUpdate_of_options_error lib client data w _ _ ho
    · rw [cassandraClusterCreate_eq]
      exact firewallRuleCreate_of_options_error lib client data w _ _ ho
    · rw [cassandraClusterUpdate_eq]
      exact firewallRuleUpdate_of_options_error lib client data w _ _ ho
  · intro e ht
    have ho := getCreateTaskOptions_type_error lib data e ht
    refine ⟨ho, ?_, ?_, ?_, ?_⟩
    · exact firewallRuleCreate_of_options_error lib client data w _ _ ho
    · exact firewallRuleUpdate_of_options_error lib client data w _ _ ho
    · rw [cassandraClusterCreate_eq]
      exact firewallRuleCreate_of_options_error lib client data w _ _ ho
    · rw [cassandraClusterUpdate_eq]
      exact firewallRuleUpdate_of_options_error lib client data w _ _ ho

/-- C7 (amended) at a local state whose second identifier entry is malformed. -/
theorem malformed_entry_aborts_before_any_call_witness :
    ∃ bad ∈ sampleMalformedData.database_retention_policies, ¬ wellFormedEntry bad ∧
      (parseDatabaseRetentionPolicies sampleMalformedData.database_retention_policies).2 =
        some ⟨parseErrorMessage bad⟩ ∧
      ((sampleTextCodec.TaskTypeUnmarshalText sampleMalformedData.type).2 = none →
        getCreateTaskOptions sampleTextCodec sampleMalformedData =
          (CreateTaskOptions.zero, some ⟨parseErrorMessage bad⟩) ∧
        resourceFirewallRuleCreate sampleTextCodec (sampleClient none sampleTask)
          sampleMalformedData sampleWorld =
          ⟨some ⟨parseErrorMessage bad⟩, sampleMalformedData, sampleWorld⟩ ∧
        resourceFirewallRuleUpdate sampleTextCodec (sampleClient none sampleTask)
          sampleMalformedData sampleWorld =
          ⟨some ⟨parseErrorMessage bad⟩, sampleMalformedData, sampleWorld⟩ ∧
        resourceCassandraClusterCreate sampleTextCodec (sampleClient none sampleTask)
          sampleMalformedData sampleWorld =
          ⟨some ⟨parseErrorMessage bad⟩, sampleMalformedData, sampleWorld⟩ ∧
        resourceCassandraClusterUpdate sampleTextCodec (sampleClient none sampleTask)
          sampleMalformedData sampleWorld =
          ⟨some ⟨parseErrorMessage bad⟩, sampleMalformedData, sampleWorld⟩) ∧
      (∀ e, (sampleTextCodec.TaskTypeUnmarshalText sampleMalformedData.type).2 = some e →
        getCreateTaskOptions sampleTextCodec sampleMalformedData =
          (CreateTaskOptions.zero, some e) ∧
        resourceFirewallRuleCreate sampleTextCodec (sampleClient none sampleTask)
          sampleMalformedData sampleWorld = ⟨some e, sampleMalformedData, sampleWorld⟩ ∧
        resourceFirewallRuleUpdate sampleTextCodec (sampleClient none sampleTask)
          sampleMalformedData sampleWorld = ⟨some e, sampleMalformedData, sampleWorld⟩ ∧
        resourceCassandraClusterCreate sampleTextCodec (sampleClient none sampleTask)
          sampleMalformedData sampleWorld = ⟨some e, sampleMalformedData, sampleWorld⟩ ∧
        resourceCassandraClusterUpdate sampleTextCodec (sampleClient none sampleTask)
          sampleMalformedData sampleWorld = ⟨some e, sampleMalformedData, sampleWorld⟩) :=
  malformed_entry_aborts_before_any_call sampleTextCodec (sampleClient none sampleTask)
    sampleMalformedData sampleWorld ⟨"onlyonepart", by decide, by decide⟩

/-- C8: when the local state's options parse and `UpdateTask` returns an
error `e`, update returns `e` with no further call exactly when `e`'s message
does not contain `invalid response: code 204`; when the message contains it,
or when `UpdateTask` returns no error, update returns what the read that
follows returns. -/
theorem update_error_propagation {σ : Type} (lib : TextCodec) (client : Client σ)
    (data : ResourceData) (w : World σ) (opts : CreateTaskOptions)
    (hopts : getCreateTaskOptions lib data = (opts, none)) :
    (∀ e, updateTaskError client data opts w = some e →
      (strings.Contains e.Error "invalid response: code 204" = false →
        resourceFirewallRuleUpdate lib client data w =
            ⟨some e, data, worldAfterUpdateTask client data opts w⟩ ∧
        resourceCassandraClusterUpdate lib client data w =
            ⟨some e, data, worldAfterUpdateTask client data opts w⟩) ∧
      (strings.Contains e.Error "invalid response: code 204" = true →
        resourceFirewallRuleUpdate lib client data w =
            resourceFirewallRuleRead lib client data (worldAfterUpdateTask client data opts w) ∧
        resourceCassandraClusterUpdate lib client data w =
            resourceCassandraClusterRead lib client data
              (worldAfterUpdateTask client data opts w)) ∧
      (((resourceFirewallRuleUpdate lib client data w).err = some e ∧
          (resourceFirewallRuleUpdate lib client data w).world.calls =
            (worldAfterUpdateTask client data opts w).calls) ↔
        strings.Contains e.Error "invalid response: code 204" = false) ∧
      (((resourceCassandraClusterUpdate lib client data w).err = some e ∧
          (resourceCassandraClusterUpdate lib client data w).world.calls =
            (worldAfterUpdateTask client data opts w).calls) ↔
        strings.Contains e.Error "invalid response: code 204" = false)) ∧
    (updateTaskError client data opts w = none →
      resourceFirewallRuleUpdate lib client data w =
          resourceFirewallRuleRead lib client data (worldAfterUpdateTask client data opts w) ∧
      resourceCassandraClusterUpdate lib client data w =
          resourceCassandraClusterRead lib client data
            (worldAfterUpdateTask client data opts w)) := by
  have hupd := firewallRuleUpdate_of_options lib client data w opts hopts
  have hfalse : ∀ e, updateTaskError client data opts w = some e →
      strings.Contains e.Error "invalid response: code 204" = false →
      resourceFirewallRuleUpdate lib client data w =
        ⟨some e, data, worldAfterUpdateTask client data opts w⟩ := by
    intro e he hc
    rw [hupd, he]
    simp [hc]
  have htrue : ∀ e, updateTaskError client data opts w = some e →
      strings.Contains e.Error "invalid response: code 204" = true →
      resourceFirewallRuleUpdate lib client data w =
        resourceFirewallRuleRead lib client data (worldAfterUpdateTask client data opts w) := by
    intro e he hc
    rw [hupd, he]
    simp [hc]
  have hiff : ∀ e, updateTaskError client data opts w = some e →
      (((resourceFirewallRuleUpdate lib client data w).err = some e ∧
          (resourceFirewallRuleUpdate lib client data w).world.calls =
            (worldAfterUpdateTask client data opts w).calls) ↔
        strings.Contains e.Error "invalid response: code 204" = false) := by
    intro e he
    constructor
    · rintro ⟨_, hcalls⟩
      cases hc : strings.Contains e.Error "invalid response: code 204" with
      | false => rfl
      | true =>
        rw [htrue e he hc, firewallRuleRead_calls] at hcalls
        have hlen := congrArg List.length hcalls
        simp [worldAfterTaskLookup] at hlen
    · intro hc
      rw [hfalse e he hc]
      exact ⟨rfl, rfl⟩
  refine ⟨?_, ?_⟩
  · intro e he
    refine ⟨?_, ?_, hiff e he, ?_⟩
    · intro hc
      exact ⟨hfalse e he hc, by rw [cassandraClusterUpdate_eq]; exact hfalse e he hc⟩
    · intro hc
      exact ⟨htrue e he hc, by
        rw [cassandraClusterUpdate_eq, cassandraClusterRead_eq]; exact htrue e he hc⟩
    · rw [cassandraClusterUpdate_eq]
      exact hiff e he
  · intro hn
    have : resourceFirewallRuleUpdate lib client data w =
        resourceFirewallRuleRead lib client data (worldAfterUpdateTask client data opts w) := by
      rw [hupd, hn]
    exact ⟨this, by rw [cassandraClusterUpdate_eq, cassandraClusterRead_eq]; exact this⟩

/-- C8 at a client whose `UpdateTask` fails with the message `boom`: update
returns that error after the one `UpdateTask` call. -/
theorem update_error_propagation_witness :
    resourceFirewallRuleUpdate sampleTextCodec (sampleClient (some ⟨"boom"⟩) sampleTask)
        sampleData sampleWorld =
      ⟨some ⟨"boom"⟩, sampleData,
        ⟨(), [Call.UpdateTask ⟨"/kapacitor/v1/tasks/task-1"⟩
          ⟨"task-1", 1, [], "stream|from()", 1⟩]⟩⟩ :=
  (((update_error_propagation sampleTextCodec (sampleClient (some ⟨"boom"⟩) sampleTask)
    sampleData sampleWorld ⟨1, [⟨"mydb", "myrp"⟩], "stream|from()", 1⟩ (by decide)).1
      ⟨"boom"⟩ (by decide)).1 (by decide)).1

/-- C9 as stated fails: a task lookup that yields a task with an empty ID
together with an error makes the read return that error and keep the resource
identifier. -/
theorem read_keeps_identifier_when_lookup_fails :
    ((sampleFailingLookupClient ⟨"unknown task task-1"⟩).Task
      ((sampleFailingLookupClient ⟨"unknown task task-1"⟩).TaskLink sampleData.id)
      sampleWorld.remote).1.1.ID = "" ∧
    (resourceFirewallRuleRead sampleTextCodec
      (sampleFailingLookupClient ⟨"unknown task task-1"⟩) sampleData sampleWorld).err =
      some ⟨"unknown task task-1"⟩ ∧
    (resourceFirewallRuleRead sampleTextCodec
      (sampleFailingLookupClient ⟨"unknown task task-1"⟩) sampleData sampleWorld).err ≠ none ∧
    (resourceFirewallRuleRead sampleTextCodec
      (sampleFailingLookupClient ⟨"unknown task task-1"⟩) sampleData sampleWorld).data.Id =
      "task-1" ∧
    (resourceFirewallRuleRead sampleTextCodec
      (sampleFailingLookupClient ⟨"unknown task task-1"⟩) sampleData sampleWorld).data.Id ≠ "" ∧
    (resourceCassandraClusterRead sampleTextCodec
      (sampleFailingLookupClient ⟨"unknown task task-1"⟩) sampleData sampleWorld).err ≠ none ∧
    (resourceCassandraClusterRead sampleTextCodec
      (sampleFailingLookupClient ⟨"unknown task task-1"⟩) sampleData sampleWorld).data.Id ≠ "" := by
  decide

/-- C9 (amended): when the task lookup of a read yields a task whose ID is
empty, then: if the lookup returned no error, the read returns no error and
leaves the resource data as it was but for the resource identifier, which
becomes the empty string; if the lookup returned an error, the read returns
that error and leaves the resource data, identifier included, as it was.  In
both cases the lookup is the only call made. -/
theorem read_clears_identifier_when_task_missing {σ : Type} (lib : TextCodec)
    (client : Client σ) (data : ResourceData) (w : World σ) (task : Task)
    (lookupErr : Option error)
    (hlookup : (client.Task (client.TaskLink data.id) w.remote).1 = (task, lookupErr))
    (hid : task.ID = "") :
    (lookupErr = none →
      resourceFirewallRuleRead lib client data w =
        ⟨none, { data with Id := "" }, worldAfterTaskLookup client data w⟩ ∧
      resourceCassandraClusterRead lib client data w =
        ⟨none, { data with Id := "" }, worldAfterTaskLookup client data w⟩) ∧
    (∀ e, lookupErr = some e →
      resourceFirewallRuleRead lib client data w =
        ⟨some e, data, worldAfterTaskLookup client data w⟩ ∧
      resourceCassandraClusterRead lib client data w =
        ⟨some e, data, worldAfterTaskLookup client data w⟩) := by
  constructor
  · intro hnone
    subst hnone
    have hread : resourceFirewallRuleRead lib client data w =
        ⟨none, { data with Id := "" }, worldAfterTaskLookup client data w⟩ := by
      unfold resourceFirewallRuleRead worldAfterTaskLookup
      simp only [hlookup, hid, ne_eq, not_true_eq_false, if_false]
    exact ⟨hread, by rw [cassandraClusterRead_eq]; exact hread⟩
  · intro e hsome
    subst hsome
    have hread : resourceFirewallRuleRead lib client data w =
        ⟨some e, data, worldAfterTaskLookup client data w⟩ := by
      unfold resourceFirewallRuleRead worldAfterTaskLookup
      simp only [hlookup]
    exact ⟨hread, by rw [cassandraClusterRead_eq]; exact hread⟩

/-- C9 (amended) at a client whose task lookup answers with the zero task and
no error. -/
theorem read_clears_identifier_when_task_missing_witness :
    resourceFirewallRuleRead sampleTextCodec (sampleClient none Task.zero) sampleData
        sampleWorld =
      ⟨none, { sampleData with Id := "" },
        worldAfterTaskLookup (sampleClient none Task.zero) sampleData sampleWorld⟩ ∧
    resourceCassandraClusterRead sampleTextCodec (sampleClient none Task.zero) sampleData
        sampleWorld =
      ⟨none, { sampleData with Id := "" },
        worldAfterTaskLookup (sampleClient none Task.zero) sampleData sampleWorld⟩ :=
  (read_clears_identifier_when_task_missing sampleTextCodec (sampleClient none Task.zero)
    sampleData sampleWorld Task.zero none (by decide) (by decide)).1 rfl

/-- C10: when the local state's fields parse, the one `UpdateTask` call an
update makes carries the local `id`, the unmarshalled `type` and `status`, the
local `tick_script` and an empty `DBRPs`; a local state that differs only in
its identifier list, its fields parsing too, sends the same request and leaves
the same world. -/
theorem update_request_omits_identifiers {σ : Type} (lib : TextCodec) (client : Client σ)
    (data : ResourceData) (w : World σ) (opts : CreateTaskOptions)
    (hopts : getCreateTaskOptions lib data = (opts, none)) :
    (∃ rest, (rest = [] ∨ rest = [Call.Task (client.TaskLink data.id)]) ∧
      (resourceFirewallRuleUpdate lib client data w).world.calls =
        w.calls ++ Call.UpdateTask (client.TaskLink data.id)
          ⟨data.id, (lib.TaskTypeUnmarshalText data.type).1, [], data.tick_script,
            (lib.TaskStatusUnmarshalText data.status).1⟩ :: rest ∧
      (resourceCassandraClusterUpdate lib client data w).world.calls =
        w.calls ++ Call.UpdateTask (client.TaskLink data.id)
          ⟨data.id, (lib.TaskTypeUnmarshalText data.type).1, [], data.tick_script,
            (lib.TaskStatusUnmarshalText data.status).1⟩ :: rest) ∧
    (∀ (dbrps : List String) (opts2 : CreateTaskOptions),
      getCreateTaskOptions lib { data with database_retention_policies := dbrps } =
        (opts2, none) →
      updateTaskRequest { data with database_retention_policies := dbrps } opts2 =
        updateTaskRequest data opts ∧
      (resourceFirewallRuleUpdate lib client
          { data with database_retention_policies := dbrps } w).world =
        (resourceFirewallRuleUpdate lib client data w).world ∧
      (resourceCassandraClusterUpdate lib client
          { data with database_retention_policies := dbrps } w).world =
        (resourceCassandraClusterUpdate lib client data w).world) := by
  have hreq := updateTaskRequest_eq lib data opts hopts
  have hworld := firewallRuleUpdate_world lib client data w opts hopts
  constructor
  · have hcalls : ∃ rest, (rest = [] ∨ rest = [Call.Task (client.TaskLink data.id)]) ∧
        (resourceFirewallRuleUpdate lib client data w).world.calls =
          w.calls ++ Call.UpdateTask (client.TaskLink data.id)
            (updateTaskRequest data opts) :: rest := by
      rw [hworld]
      cases updateTaskError client data opts w with
      | none =>
        exact ⟨[Call.Task (client.TaskLink data.id)], Or.inr rfl, by
          simp [worldAfterTaskLookup, worldAfterUpdateTask]⟩
      | some err =>
        cases hc : strings.Contains err.Error "invalid response: code 204"
        · exact ⟨[], Or.inl rfl, by simp [hc, worldAfterUpdateTask]⟩
        · exact ⟨[Call.Task (client.TaskLink data.id)], Or.inr rfl, by
            simp [hc, worldAfterTaskLookup, worldAfterUpdateTask]⟩
    obtain ⟨rest, hrest, hc⟩ := hcalls
    rw [hreq] at hc
    exact ⟨rest, hrest, hc, by rw [cassandraClusterUpdate_eq]; exact hc⟩
  · intro dbrps opts2 hopts2
    have hreq2 := updateTaskRequest_eq lib _ opts2 hopts2
    have heq : updateTaskRequest { data with database_retention_policies := dbrps } opts2 =
        updateTaskRequest data opts := by
      rw [hreq, hreq2]
    have hworld2 := firewallRuleUpdate_world lib client _ w opts2 hopts2
    have hw : (resourceFirewallRuleUpdate lib client
          { data with database_retention_policies := dbrps } w).world =
        (resourceFirewallRuleUpdate lib client data w).world := by
      rw [hworld, hworld2]
      simp only [updateTaskError, worldAfterUpdateTask, worldAfterTaskLookup, heq]
    exact ⟨heq, hw, by rw [cassandraClusterUpdate_eq, cassandraClusterUpdate_eq]; exact hw⟩

/-- C10 at a local state whose fields parse. -/
theorem update_request_omits_identifiers_witness :
    ∃ rest, (rest = [] ∨ rest = [Call.Task ⟨"/kapacitor/v1/tasks/task-1"⟩]) ∧
      (resourceFirewallRuleUpdate sampleTextCodec (sampleClient none sampleTask) sampleData
        sampleWorld).world.calls =
        [] ++ Call.UpdateTask ⟨"/kapacitor/v1/tasks/task-1"⟩
          ⟨"task-1", 1, [], "stream|from()", 1⟩ :: rest ∧
      (resourceCassandraClusterUpdate sampleTextCodec (sampleClient none sampleTask) sampleData
        sampleWorld).world.calls =
        [] ++ Call.UpdateTask ⟨"/kapacitor/v1/tasks/task-1"⟩
          ⟨"task-1", 1, [], "stream|from()", 1⟩ :: rest :=
  (update_request_omits_identifiers sampleTextCodec (sampleClient none sampleTask) sampleData
    sampleWorld ⟨1, [⟨"mydb", "myrp"⟩], "stream|from()", 1⟩ (by decide)).1

end TerraformProvider
